import Mathlib

/-!
Verification of the RailuinoSeeed message codec and track controller
(`RailuinoSeeed.cpp` / `RailuinoSeeed.h`).

The development shallowly embeds the C++ source: machine integers become
`Nat` with explicit `% 2^w` where the C types truncate, fallible operations
return `Option`, and the stateful busy-wait exchange loop becomes a function
over an explicit trace of clock readings and poll results.
-/

namespace Railuino

/-! ## Hex text codec helpers (`printHex` / `parseHex`) -/

/-- Hex digit character for a value, lowercase, as produced by Arduino
`String(hex, HEX)` inside `printHex` (48 = '0', 87 + 10 = 97 = 'a'). -/
def toHexDigit (d : Nat) : Char :=
  if d < 10 then Char.ofNat (48 + d) else Char.ofNat (87 + d)

/-- Value of one hex digit character, following the three branches of
`parseHex`: `'0'..'9'` (codes 48–57, value `c - '0'`), `'a'..'f'` (codes
97–102, value `10 + c - 'a' = c - 87`), `'A'..'F'` (codes 65–70, value
`10 + c - 'A' = c - 55`); any other character trips the `*ok = false`
failure branch, modelled as `none`. -/
def hexDigitValue (c : Char) : Option Nat :=
  if 48 ≤ c.toNat ∧ c.toNat ≤ 57 then some (c.toNat - 48)
  else if 97 ≤ c.toNat ∧ c.toNat ≤ 102 then some (c.toNat - 87)
  else if 65 ≤ c.toNat ∧ c.toNat ≤ 70 then some (c.toNat - 55)
  else none

/-- Worker for `hexDigitsRev`, structurally recursive on a fuel argument so
that the kernel can evaluate it; `fuel ≥ n` always suffices. -/
def hexDigitsRevFuel : Nat → Nat → List Nat
  | _, 0 => []
  | 0, _ + 1 => []
  | fuel + 1, n + 1 => (n + 1) % 16 :: hexDigitsRevFuel fuel ((n + 1) / 16)

/-- Little-endian hex digit values of a number, empty for 0; these are the
digits `String(hex, HEX)` renders (it renders them most significant first). -/
def hexDigitsRev (n : Nat) : List Nat :=
  hexDigitsRevFuel n n

/-- The characters of Arduino `String(n, HEX)`: minimal lowercase hex,
`"0"` for zero. -/
def hexChars (n : Nat) : List Char :=
  if n = 0 then ['0'] else ((hexDigitsRev n).map toHexDigit).reverse

/-- `printHex(p, hex, digits)`: left-pad the hex rendering with `'0'` up to
`digits` characters (no truncation when the value needs more digits). -/
def printHexChars (n digits : Nat) : List Char :=
  List.replicate (digits - (hexChars n).length) '0' ++ hexChars n

/-- Arduino `String::charAt`, which returns the NUL character when the index
is out of range. -/
def charAt (s : List Char) (i : Nat) : Char :=
  s.getD i (Char.ofNat 0)

/-- The loop of `parseHex(s, start, end)`, indexed by the remaining iteration
count `end - start`: fold hex digits onto `value`, failing (`none`, the
`*ok = false` path) on a non-hex character. -/
def parseHexLoop (s : List Char) : Nat → Nat → Nat → Option Nat
  | _, 0, acc => some acc
  | i, k + 1, acc =>
    match hexDigitValue (charAt s i) with
    | some d => parseHexLoop s (i + 1) k (16 * acc + d)
    | none => none

/-- `parseHex(s, start, end)` with initial value 0 implicit in the caller;
the C loop runs for indices `start ≤ i < end`. -/
def parseHexAt (s : List Char) (start stop acc : Nat) : Option Nat :=
  parseHexLoop s start (stop - start) acc

/-! ## TrackMessage and the two codecs -/

/-- `TrackMessage`: `command` is a `byte`, `hash` a 16-bit `word`,
`response` a `boolean`, `length` a `byte`, `data` the 8-byte payload array
(held as a list whose meaningful prefix has `length` entries). -/
structure TrackMessage where
  command : Nat
  hash : Nat
  response : Bool
  length : Nat
  data : List Nat
deriving DecidableEq

/-- `TrackMessage::clear()`: everything zeroed, `response = false`. -/
def TrackMessage.cleared : TrackMessage :=
  ⟨0, 0, false, 0, List.replicate 8 0⟩

/-- The data-byte loop of `printTo`: one `' '` then two hex digits per
payload byte. -/
def renderDataBytes : List Nat → List Char
  | [] => []
  | b :: bs => ' ' :: (printHexChars b 2 ++ renderDataBytes bs)

/-- `TrackMessage::printTo`: `HHHH R CC L [DD ]*` — four hash digits, then
`" R "` or three spaces, two command digits, a space, one length digit, and
one `" DD"` group per payload byte up to `length`. -/
def TrackMessage.printTo (m : TrackMessage) : List Char :=
  printHexChars m.hash 4
    ++ (if m.response then [' ', 'R', ' '] else [' ', ' ', ' '])
    ++ printHexChars m.command 2
    ++ [' ']
    ++ printHexChars m.length 1
    ++ renderDataBytes (m.data.take m.length)

/-- The data-byte loop of `parseFrom`: byte `i` occupies characters
`12 + 3*i` and `13 + 3*i`; each parsed value is truncated to the `byte`
field (`% 256`). Returns the list of parsed bytes (the source writes them
into the cleared `data` array). -/
def parseDataFrom (s : List Char) : Nat → Nat → Option (List Nat)
  | _, 0 => some []
  | i, n + 1 =>
    match parseHexAt s (12 + 3 * i) (12 + 3 * i + 2) 0 with
    | some b => (parseDataFrom s (i + 1) n).map fun bs => b % 256 :: bs
    | none => none

/-- `TrackMessage::parseFrom`. `none` models a `false` return; the header
documents the object state after a failed parse as undefined, so only the
success value carries message contents. The source reads fixed offsets:
hash at 0–3, the response marker at 5 (`!= ' '`), command at 7–8, the
length digit at 10, and data bytes at `12 + 3*i`. Field assignments from
`parseHex`'s `int` result truncate to the field types (`% 2^16`, `% 2^8`);
a failed `parseHex` is `none` here, matching the source where every failure
path returns `false` (a failed length digit reads as byte 255 > 8). -/
def parseFrom (s : List Char) : Option TrackMessage :=
  if s.length < 11 then none
  else
    match parseHexAt s 0 4 0, parseHexAt s 7 9 0, parseHexAt s 10 11 0 with
    | some h, some c, some L =>
      let len := L % 256
      if 8 < len then none
      else if s.length < 11 + 3 * len then none
      else
        match parseDataFrom s 0 len with
        | some bs =>
          some ⟨c % 256, h % 65536, charAt s 5 != ' ', len,
            bs ++ List.replicate (8 - len) 0⟩
        | none => none
    | _, _, _ => none

/-- `TrackMessage::fromCanMsg`: clears the message, then takes
`command = (aId >> 17) & 0xff`, `hash = aId & 0xffff`,
`response = bitRead(aId, 16)`, sets `length = aLen` with no validation, and
copies `aLen` bytes; it always returns `true`. For `aLen > 8` the C loop
writes past the 8-byte array (undefined behaviour); the model keeps the
8 in-bounds slots. `aExt`/`aRtr` are accepted and ignored, as in the
source. -/
def fromCanMsg (aId _aExt _aRtr aLen : Nat) (aBuf : List Nat) :
    TrackMessage × Bool :=
  ({ command := (aId >>> 17) &&& 0xff
     hash := aId &&& 0xffff
     response := aId.testBit 16
     length := aLen
     data := (List.range 8).map fun i => if i < aLen then aBuf.getD i 0 else 0 },
   true)

/-! ## TrackController: send, exchange, and the command catalog -/

/-- One CAN frame as handed to `MCP_CAN::sendMsgBuf`. -/
structure CanFrame where
  id : Nat
  ext : Nat
  rtr : Nat
  len : Nat
  buf : List Nat
deriving DecidableEq

/-- `TrackController::sendMessage`: stamps the controller hash into the
message, packs `id = command << 17 | hash` (the response bit 16 is never
set), hands the frame to the transport, and returns whether the transport
accepted it (`result == CAN_OK`, here the `accepted` input). The debug
branches only print; every path of the source reaches the final `return`,
so the function is total: `(stamped message, frame, accepted)`. -/
def sendMessage (mHash : Nat) (m : TrackMessage) (accepted : Bool) :
    TrackMessage × CanFrame × Bool :=
  let msg : TrackMessage := { m with hash := mHash }
  (msg, ⟨(msg.command <<< 17) ||| msg.hash, 1, 0, msg.length, msg.data⟩,
   accepted)

/-- Control-flow outcome of a controller call: either control returns to the
caller, or the call halts forever (the `for(;;);` emergency stop). -/
inductive SendOutcome where
  | returned (accepted : Bool)
  | halted
deriving DecidableEq

/-- `sendMessage` with its control-flow outcome made explicit: the source
contains no loop or halt — it always returns the transport status. -/
def sendMessageOutcome (mHash : Nat) (m : TrackMessage) (accepted : Bool) :
    SendOutcome :=
  SendOutcome.returned (sendMessage mHash m accepted).2.2

/-- Result of `exchangeMessage`: the emergency-stop halt when the transmit
is rejected, success carrying the matching reply, or a timeout. -/
inductive ExchResult where
  | halted
  | success (reply : TrackMessage)
  | timeout
deriving DecidableEq

/-- One iteration of the `exchangeMessage` wait loop: `now` is the
`millis()` reading at the loop guard, `recv` what `receiveMessage` would
deliver if the guard passes (`none` when no frame is queued). -/
structure PollStep where
  now : Nat
  recv : Option TrackMessage
deriving DecidableEq

/-- The matching test of the wait loop:
`result && in.command == command && in.response`. -/
def isMatch (cmd : Nat) (r : Option TrackMessage) : Bool :=
  match r with
  | some m => m.command == cmd && m.response
  | none => false

/-- The `while (millis() < time + timeout)` loop of `exchangeMessage` over
an explicit trace: each step first checks the guard against the deadline
`time + timeout`; if it passes, the poll result is examined — a matching
reply returns success, anything else is discarded (the next iteration
clears and overwrites the buffer). The unconsumed trace suffix is returned
alongside the result; an exhausted trace stands for a window in which the
clock never reached the deadline and no further poll is recorded. -/
def exchangeLoop (cmd deadline : Nat) :
    List PollStep → ExchResult × List PollStep
  | [] => (.timeout, [])
  | step :: rest =>
    if step.now < deadline then
      match step.recv with
      | some m =>
        if m.command == cmd && m.response then (.success m, rest)
        else exchangeLoop cmd deadline rest
      | none => exchangeLoop cmd deadline rest
    else (.timeout, step :: rest)

/-- `TrackController::exchangeMessage`: saves `out.command`, transmits via
`sendMessage`; if the transmit is rejected it enters `for(;;);` — the
unconditional `if (true)` block whose debug prints are the only part gated
by `mDebug` — modelled as `.halted` with no poll consumed. Otherwise it
busy-waits on the trace with deadline `t0 + timeout`, `t0` being the
`millis()` reading taken right after the send. -/
def exchangeMessage (mHash : Nat) (_debug : Bool) (out : TrackMessage)
    (accepted : Bool) (t0 timeout : Nat) (polls : List PollStep) :
    ExchResult × List PollStep :=
  if (sendMessage mHash out accepted).2.2 then
    exchangeLoop out.command (t0 + timeout) polls
  else (.halted, polls)

/-- Arduino `highByte` on a 16-bit `word`. -/
def highByte (w : Nat) : Nat := (w >>> 8) &&& 0xff

/-- Arduino `lowByte`. -/
def lowByte (w : Nat) : Nat := w &&& 0xff

/-- The speed update of `accelerateLoco`: `speed += 77` in 16-bit `word`
arithmetic, then clamp at 1023. -/
def accelerateStep (speed : Nat) : Nat :=
  let s := (speed + 77) % 65536
  if 1023 < s then 1023 else s

/-- The speed update of `decelerateLoco`: `speed -= 77` in 16-bit `word`
arithmetic (wrapping), then `if (speed > 32767) speed = 0`. -/
def decelerateStep (speed : Nat) : Nat :=
  let s := (speed + 65536 - 77) % 65536
  if 32767 < s then 0 else s

/-- `TrackController::accelerateLoco`, as a function of the outcome of the
prior `getLocoSpeed` read (`none` = read failed): the speed written by the
ensuing `setLocoSpeed`, or `none` when no write is attempted. -/
def accelerateLoco (readResult : Option Nat) : Option Nat :=
  readResult.map accelerateStep

/-- `TrackController::decelerateLoco`, same shape as `accelerateLoco`. -/
def decelerateLoco (readResult : Option Nat) : Option Nat :=
  readResult.map decelerateStep

/-- The frame `setAccessory` builds: command 0x0b, length 6, address bytes
at data[2]/data[3], position at data[4], power at data[5]; hash 0 and
`response = false` from `clear()` (the hash is stamped at send time). -/
def accessoryFrame (address position power : Nat) : TrackMessage :=
  { command := 0x0b, hash := 0, response := false, length := 6,
    data := [0, 0, highByte address, lowByte address, position, power, 0, 0] }

/-- `TrackController::setAccessory`: exchanges the activation frame with a
1000 ms await; if `time ≠ 0`, sleeps `time` ms and exchanges a deactivation
frame at the same address/position whose power byte is left 0 by `clear()`.
The results of both `exchangeMessage` calls (`ex1`, `ex2` here) are
discarded by the source, and the function ends in `return true;`
unconditionally. The model returns the exchanged frames with their await
timeouts, paired with the returned boolean. -/
def setAccessory (_ex1 _ex2 : Bool) (address position power time : Nat) :
    List (TrackMessage × Nat) × Bool :=
  ((accessoryFrame address position power, 1000) ::
      (if time ≠ 0 then [(accessoryFrame address position 0, 1000)] else []),
   true)

/-- The drain loop of `TrackController::getVersion`. The source condition
`message.command = 0x18 && message.data[6] == 0x00 && message.data[7] == 0x10`
parses as an assignment of `0x18 && data[6] == 0x00 && data[7] == 0x10` to
`command`, and the `if` tests the assigned value; since 0x18 is nonzero the
branch is taken exactly when the two trailer bytes match — the received
command is never compared. A match overwrites the high/low outputs and sets
the result flag; the state after the whole drain thus reflects the last
matching frame. -/
def getVersionDrain : List TrackMessage → Bool × Nat × Nat → Bool × Nat × Nat
  | [], st => st
  | m :: ms, st =>
    if (m.data.getD 6 0 == 0) && (m.data.getD 7 0 == 0x10) then
      getVersionDrain ms (true, m.data.getD 4 0, m.data.getD 5 0)
    else getVersionDrain ms st

/-- `TrackController::getVersion`: sends the 0x18 request fire-and-forget,
delays 500 ms, then drains every queued frame (`received` is that queue) —
`high0`/`low0` are the initial contents of the out-parameters, returned
unchanged when nothing matches. Result: (matched at least once, high, low). -/
def getVersion (received : List TrackMessage) (high0 low0 : Nat) :
    Bool × Nat × Nat :=
  getVersionDrain received (false, high0, low0)

/-! ## Validity and proof scaffolding -/

/-- A well-formed message: fields within their C types, `length ≤ 8`, the
8-slot payload with zeroed bytes past `length` (the state every
`clear()`-then-fill path of the source establishes). -/
def TrackMessage.Valid (m : TrackMessage) : Prop :=
  m.command < 256 ∧ m.hash < 65536 ∧ m.length ≤ 8 ∧ m.data.length = 8 ∧
    (∀ b ∈ m.data, b < 256) ∧
    m.data.drop m.length = List.replicate (8 - m.length) 0

instance (m : TrackMessage) : Decidable m.Valid := by
  unfold TrackMessage.Valid; infer_instance

/-- Structural hex parser over a digit list, used to relate the
index-driven `parseHexAt` to the rendered text. -/
def parseHexDigits : List Char → Nat → Option Nat
  | [], acc => some acc
  | c :: cs, acc =>
    match hexDigitValue c with
    | some d => parseHexDigits cs (16 * acc + d)
    | none => none

/-- Value of a little-endian digit list. -/
def hexValRev : List Nat → Nat
  | [] => 0
  | d :: ds => d + 16 * hexValRev ds

/-! ## Lemmas about the hex digit helpers -/

theorem hexDigitsRevFuel_congr :
    ∀ fuel₁ fuel₂ n, n ≤ fuel₁ → n ≤ fuel₂ →
      hexDigitsRevFuel fuel₁ n = hexDigitsRevFuel fuel₂ n := by
  intro fuel₁
  induction fuel₁ with
  | zero =>
    intro fuel₂ n h₁ _
    interval_cases n
    cases fuel₂ <;> rfl
  | succ f₁ ih =>
    intro fuel₂ n h₁ h₂
    match n, fuel₂ with
    | 0, fuel₂ => cases fuel₂ <;> rfl
    | m + 1, f₂ + 1 =>
      show (m + 1) % 16 :: hexDigitsRevFuel f₁ ((m + 1) / 16)
          = (m + 1) % 16 :: hexDigitsRevFuel f₂ ((m + 1) / 16)
      have hdiv : (m + 1) / 16 ≤ f₁ := by omega
      have hdiv' : (m + 1) / 16 ≤ f₂ := by omega
      rw [ih f₂ ((m + 1) / 16) hdiv hdiv']

theorem hexDigitsRev_zero : hexDigitsRev 0 = [] := rfl

theorem hexDigitsRev_succ (n : Nat) :
    hexDigitsRev (n + 1) = (n + 1) % 16 :: hexDigitsRev ((n + 1) / 16) := by
  show hexDigitsRevFuel (n + 1) (n + 1) = _
  show (n + 1) % 16 :: hexDigitsRevFuel n ((n + 1) / 16) = _
  rw [hexDigitsRevFuel_congr n ((n + 1) / 16) ((n + 1) / 16) (by omega) le_rfl]
  rfl

theorem hexDigitValue_toHexDigit {d : Nat} (h : d < 16) :
    hexDigitValue (toHexDigit d) = some d := by
  interval_cases d <;> decide

theorem hexDigitValue_lt {c : Char} {v : Nat} (h : hexDigitValue c = some v) :
    v < 16 := by
  unfold hexDigitValue at h
  split at h
  · rename_i hc; cases h; omega
  · split at h
    · rename_i hc; cases h; omega
    · split at h
      · rename_i hc; cases h; omega
      · cases h

theorem hexValRev_hexDigitsRev : ∀ n, hexValRev (hexDigitsRev n) = n := by
  intro n
  induction n using Nat.strong_induction_on with
  | _ n ih =>
    match n with
    | 0 => rfl
    | m + 1 =>
      rw [hexDigitsRev_succ]
      show (m + 1) % 16 + 16 * hexValRev (hexDigitsRev ((m + 1) / 16)) = m + 1
      rw [ih ((m + 1) / 16) (Nat.div_lt_self (Nat.succ_pos m) (by norm_num))]
      omega

theorem hexDigitsRev_all_lt : ∀ n d, d ∈ hexDigitsRev n → d < 16 := by
  intro n
  induction n using Nat.strong_induction_on with
  | _ n ih =>
    match n with
    | 0 => intro d hd; simp [hexDigitsRev_zero] at hd
    | m + 1 =>
      intro d hd
      rw [hexDigitsRev_succ] at hd
      rcases List.mem_cons.mp hd with h | h
      · omega
      · exact ih ((m + 1) / 16) (Nat.div_lt_self (Nat.succ_pos m) (by norm_num)) d h

theorem hexDigitsRev_length_le : ∀ d n, n < 16 ^ d → (hexDigitsRev n).length ≤ d := by
  intro d
  induction d with
  | zero =>
    intro n h
    interval_cases n
    simp [hexDigitsRev_zero]
  | succ d ih =>
    intro n h
    match n with
    | 0 => simp [hexDigitsRev_zero]
    | m + 1 =>
      rw [hexDigitsRev_succ]
      simp only [List.length_cons]
      have hdiv : (m + 1) / 16 < 16 ^ d := by
        have h16 : m + 1 < 16 ^ d * 16 := by rw [pow_succ] at h; omega
        omega
      exact Nat.succ_le_succ (ih _ hdiv)

theorem hexChars_length_le {d n : Nat} (hd : 0 < d) (h : n < 16 ^ d) :
    (hexChars n).length ≤ d := by
  unfold hexChars
  split
  · simpa using hd
  · simpa using hexDigitsRev_length_le d n h

theorem printHexChars_length {d n : Nat} (hd : 0 < d) (h : n < 16 ^ d) :
    (printHexChars n d).length = d := by
  unfold printHexChars
  have := hexChars_length_le hd h
  simp only [List.length_append, List.length_replicate]
  omega

/-! ## Lemmas about the structural hex parser -/

theorem parseHexDigits_append (xs ys : List Char) (acc : Nat) :
    parseHexDigits (xs ++ ys) acc
      = (parseHexDigits xs acc).bind fun a => parseHexDigits ys a := by
  induction xs generalizing acc with
  | nil => rfl
  | cons c cs ih =>
    cases h : hexDigitValue c with
    | none => simp [parseHexDigits, h]
    | some d =>
      simp only [List.cons_append, parseHexDigits, h]
      exact ih (16 * acc + d)

theorem parseHexDigits_reverse_map :
    ∀ (l : List Nat), (∀ d ∈ l, d < 16) → ∀ acc,
      parseHexDigits ((l.map toHexDigit).reverse) acc
        = some (acc * 16 ^ l.length + hexValRev l) := by
  intro l
  induction l with
  | nil => intro _ acc; simp [parseHexDigits, hexValRev]
  | cons d ds ih =>
    intro hd acc
    have hd' : d < 16 := hd d (List.mem_cons_self d ds)
    have hds : ∀ x ∈ ds, x < 16 := fun x hx => hd x (List.mem_cons_of_mem d hx)
    simp only [List.map_cons, List.reverse_cons]
    rw [parseHexDigits_append, ih hds acc]
    show parseHexDigits [toHexDigit d] _ = _
    unfold parseHexDigits
    rw [hexDigitValue_toHexDigit hd']
    show some (16 * (acc * 16 ^ ds.length + hexValRev ds) + d) = _
    have : (d :: ds).length = ds.length + 1 := rfl
    rw [this, hexValRev, pow_succ]
    ring_nf

theorem parseHexDigits_hexChars (n : Nat) :
    parseHexDigits (hexChars n) 0 = some n := by
  unfold hexChars
  split
  · rename_i h; subst h; rfl
  · rw [parseHexDigits_reverse_map (hexDigitsRev n) (hexDigitsRev_all_lt n) 0,
      hexValRev_hexDigitsRev]
    simp

theorem parseHexDigits_replicate_zero (k : Nat) (l : List Char) :
    parseHexDigits (List.replicate k '0' ++ l) 0 = parseHexDigits l 0 := by
  induction k with
  | zero => rfl
  | succ k ih =>
    have h0 : hexDigitValue '0' = some 0 := by decide
    simp only [List.replicate_succ, List.cons_append, parseHexDigits, h0]
    simpa using ih

theorem parseHexDigits_printHexChars (n d : Nat) :
    parseHexDigits (printHexChars n d) 0 = some n := by
  unfold printHexChars
  rw [parseHexDigits_replicate_zero, parseHexDigits_hexChars]

theorem charAt_of_drop {s : List Char} {i : Nat} {c : Char} {t : List Char}
    (h : s.drop i = c :: t) : charAt s i = c := by
  unfold charAt
  rw [List.getD_eq_getElem?_getD]
  have h0 : (s.drop i)[0]? = s[i]? := by
    rw [List.getElem?_drop, Nat.add_zero]
  rw [← h0, h]
  simp

/-- Bridge: the index-driven `parseHexLoop` over a window of `s` equals the
structural parser on that window. -/
theorem parseHexLoop_eq_parseHexDigits :
    ∀ (w : List Char) (s : List Char) (start acc : Nat),
      (s.drop start).take w.length = w →
      parseHexLoop s start w.length acc = parseHexDigits w acc := by
  intro w
  induction w with
  | nil => intro s start acc _; rfl
  | cons c cs ih =>
    intro s start acc hw
    have hdrop : ∃ t, s.drop start = c :: t ∧ t.take cs.length = cs := by
      cases hs : s.drop start with
      | nil => rw [hs] at hw; simp at hw
      | cons a t =>
        rw [hs] at hw
        simp only [List.length_cons, List.take_succ_cons, List.cons.injEq] at hw
        exact ⟨t, by rw [hw.1], hw.2⟩
    obtain ⟨t, hst, htake⟩ := hdrop
    have hchar : charAt s start = c := by
      unfold charAt
      rw [List.getD_eq_getElem?_getD]
      have h0 : (s.drop start)[0]? = s[start]? := by
        rw [List.getElem?_drop, Nat.add_zero]
      rw [← h0, hst]
      simp
    have ht : t = s.drop (start + 1) := by
      have := List.tail_drop s start
      rw [hst] at this
      simpa using this
    show parseHexLoop s start (cs.length + 1) acc = _
    unfold parseHexLoop parseHexDigits
    rw [hchar]
    cases hexDigitValue c with
    | none => rfl
    | some dd =>
      exact ih s (start + 1) (16 * acc + dd) (by rw [← ht]; exact htake)

/-- `parseHexAt` on a window whose characters are known. -/
theorem parseHexAt_window {s w : List Char} {start stop acc : Nat}
    (hstop : stop = start + w.length)
    (hw : (s.drop start).take w.length = w) :
    parseHexAt s start stop acc = parseHexDigits w acc := by
  unfold parseHexAt
  have : stop - start = w.length := by omega
  rw [this]
  exact parseHexLoop_eq_parseHexDigits w s start acc hw

/-! ## Round-trip of the text codec -/

theorem renderDataBytes_length (bs : List Nat) (hb : ∀ b ∈ bs, b < 256) :
    (renderDataBytes bs).length = 3 * bs.length := by
  induction bs with
  | nil => rfl
  | cons b rest ih =>
    have hb' : b < 256 := hb b (List.mem_cons_self _ _)
    have h2 : (printHexChars b 2).length = 2 :=
      printHexChars_length (by norm_num) (hb'.trans_eq (by norm_num))
    show (' ' :: (printHexChars b 2 ++ renderDataBytes rest)).length = _
    have := ih fun x hx => hb x (List.mem_cons_of_mem _ hx)
    simp only [List.length_cons, List.length_append, h2, this]
    omega

/-- The data loop of `parseFrom` recovers exactly the bytes that the data
loop of `printTo` rendered at the tail of the text. -/
theorem parseDataFrom_render (s : List Char) :
    ∀ (bs : List Nat) (i : Nat), (∀ b ∈ bs, b < 256) →
      s.drop (11 + 3 * i) = renderDataBytes bs →
      parseDataFrom s i bs.length = some bs := by
  intro bs
  induction bs with
  | nil => intro i _ _; rfl
  | cons b rest ih =>
    intro i hb hdrop
    have hb' : b < 256 := hb b (List.mem_cons_self _ _)
    have h2 : (printHexChars b 2).length = 2 :=
      printHexChars_length (by norm_num) (hb'.trans_eq (by norm_num))
    have hdrop1 : s.drop (12 + 3 * i)
        = printHexChars b 2 ++ renderDataBytes rest := by
      have hd : (s.drop (11 + 3 * i)).drop 1 = s.drop (12 + 3 * i) := by
        rw [List.drop_drop]
        congr 1
        omega
      rw [← hd, hdrop]
      rfl
    have hparse : parseHexAt s (12 + 3 * i) (12 + 3 * i + 2) 0 = some b := by
      have hw : (s.drop (12 + 3 * i)).take (printHexChars b 2).length
          = printHexChars b 2 := by
        rw [hdrop1]
        exact List.take_left _ _
      rw [parseHexAt_window (by rw [h2]) hw, parseHexDigits_printHexChars]
    have hnext : s.drop (11 + 3 * (i + 1)) = renderDataBytes rest := by
      have hd : (s.drop (12 + 3 * i)).drop 2 = s.drop (11 + 3 * (i + 1)) := by
        rw [List.drop_drop]
        congr 1
        omega
      rw [← hd, hdrop1, List.drop_left' h2]
    show parseDataFrom s i (rest.length + 1) = some (b :: rest)
    simp only [parseDataFrom, hparse]
    rw [ih (i + 1) (fun x hx => hb x (List.mem_cons_of_mem _ hx)) hnext]
    simp [Nat.mod_eq_of_lt hb']

/-- Full round-trip of the text codec on well-formed messages. -/
theorem parseFrom_printTo (m : TrackMessage) (hv : m.Valid) :
    parseFrom m.printTo = some m := by
  obtain ⟨hc, hh, hl, hdl, hdb, hdz⟩ := hv
  have hA : (printHexChars m.hash 4).length = 4 :=
    printHexChars_length (by norm_num) (hh.trans_eq (by norm_num))
  have hC : (printHexChars m.command 2).length = 2 :=
    printHexChars_length (by norm_num) (hc.trans_eq (by norm_num))
  have h161 : (16 : Nat) ^ 1 = 16 := by norm_num
  have hE : (printHexChars m.length 1).length = 1 :=
    printHexChars_length (by norm_num) (by omega)
  have hbytes : ∀ b ∈ m.data.take m.length, b < 256 :=
    fun b hb => hdb b (List.take_subset _ _ hb)
  have htl : (m.data.take m.length).length = m.length := by
    rw [List.length_take, hdl]
    omega
  set A := printHexChars m.hash 4 with hAdef
  set B := (if m.response then [' ', 'R', ' '] else [' ', ' ', ' ']) with hBdef
  set C := printHexChars m.command 2 with hCdef
  set E := printHexChars m.length 1 with hEdef
  set F := renderDataBytes (m.data.take m.length) with hFdef
  have hBlen : B.length = 3 := by
    rw [hBdef]
    cases m.response <;> rfl
  have hF : F.length = 3 * m.length := by
    rw [hFdef, renderDataBytes_length _ hbytes, htl]
  have hs11 : m.printTo = ((((A ++ B) ++ C) ++ [' ']) ++ E) ++ F := by
    rw [hAdef, hBdef, hCdef, hEdef, hFdef]
    rfl
  have hs : m.printTo = A ++ (B ++ (C ++ ([' '] ++ (E ++ F)))) := by
    rw [hs11]
    simp [List.append_assoc]
  have hs7 : m.printTo = (A ++ B) ++ (C ++ ([' '] ++ (E ++ F))) := by
    rw [hs11]
    simp [List.append_assoc]
  have hs10 : m.printTo = (((A ++ B) ++ C) ++ [' ']) ++ (E ++ F) := by
    rw [hs11]
    simp [List.append_assoc]
  have h7 : (A ++ B).length = 7 := by
    rw [List.length_append, hA, hBlen]
  have h10 : ((((A ++ B) ++ C) ++ [' '])).length = 10 := by
    simp only [List.length_append, hA, hBlen, hC, List.length_cons,
      List.length_nil]
  have h11 : (((((A ++ B) ++ C) ++ [' ']) ++ E)).length = 11 := by
    simp only [List.length_append, hA, hBlen, hC, hE, List.length_cons,
      List.length_nil]
  have hslen : m.printTo.length = 11 + 3 * m.length := by
    rw [hs11, List.length_append, h11, hF]
  have hhash : parseHexAt m.printTo 0 4 0 = some m.hash := by
    have hw : ((m.printTo).drop 0).take A.length = A := by
      rw [List.drop_zero, hs, List.take_left]
    rw [parseHexAt_window (by rw [hA]) hw, hAdef, parseHexDigits_printHexChars]
  have hcmd : parseHexAt m.printTo 7 9 0 = some m.command := by
    have hdrop : (m.printTo).drop 7 = C ++ ([' '] ++ (E ++ F)) := by
      rw [hs7]
      exact List.drop_left' h7
    have hw : ((m.printTo).drop 7).take C.length = C := by
      rw [hdrop]
      exact List.take_left _ _
    rw [parseHexAt_window (by rw [hC]) hw, hCdef, parseHexDigits_printHexChars]
  have hlenf : parseHexAt m.printTo 10 11 0 = some m.length := by
    have hdrop : (m.printTo).drop 10 = E ++ F := by
      rw [hs10]
      exact List.drop_left' h10
    have hw : ((m.printTo).drop 10).take E.length = E := by
      rw [hdrop]
      exact List.take_left _ _
    rw [parseHexAt_window (by rw [hE]) hw, hEdef, parseHexDigits_printHexChars]
  have hdataF : (m.printTo).drop 11 = F := by
    rw [hs11]
    exact List.drop_left' h11
  have hdata : parseDataFrom m.printTo 0 m.length = some (m.data.take m.length) := by
    have hr := parseDataFrom_render m.printTo (m.data.take m.length) 0 hbytes
      (by rw [show 11 + 3 * 0 = 11 from rfl, hdataF, hFdef])
    rwa [htl] at hr
  have hresp : (charAt m.printTo 5 != ' ') = m.response := by
    have hdrop4 : (m.printTo).drop 4 = B ++ (C ++ ([' '] ++ (E ++ F))) := by
      rw [hs]
      exact List.drop_left' hA
    have hd5 : (m.printTo).drop 5 = ((m.printTo).drop 4).drop 1 := by
      rw [List.drop_drop]
    cases hrv : m.response with
    | true =>
      have hB' : B = [' ', 'R', ' '] := by
        rw [hBdef]
        exact if_pos hrv
      have hch : (m.printTo).drop 5 = 'R' :: (' ' :: (C ++ ([' '] ++ (E ++ F)))) := by
        rw [hd5, hdrop4, hB']
        rfl
      rw [charAt_of_drop hch]
      rfl
    | false =>
      have hB' : B = [' ', ' ', ' '] := by
        rw [hBdef]
        exact if_neg (by simp [hrv])
      have hch : (m.printTo).drop 5 = ' ' :: (' ' :: (C ++ ([' '] ++ (E ++ F)))) := by
        rw [hd5, hdrop4, hB']
        rfl
      rw [charAt_of_drop hch]
      rfl
  have hmlen : m.length % 256 = m.length := Nat.mod_eq_of_lt (by omega)
  have hdataeq : m.data.take m.length ++ List.replicate (8 - m.length) 0 = m.data := by
    rw [← hdz]
    exact List.take_append_drop _ _
  simp only [parseFrom, hhash, hcmd, hlenf, hmlen, hslen, hdata]
  rw [if_neg (by omega : ¬ (11 + 3 * m.length < 11)),
    if_neg (by omega : ¬ (8 < m.length)),
    if_neg (by omega : ¬ (11 + 3 * m.length < 11 + 3 * m.length))]
  rw [Nat.mod_eq_of_lt hc, Nat.mod_eq_of_lt hh, hresp, hdataeq]

/-! ## Failure behaviour of parseFrom -/

theorem parseFrom_short {s : List Char} (h : s.length < 11) :
    parseFrom s = none := by
  unfold parseFrom
  rw [if_pos h]

theorem parseFrom_hash_fail {s : List Char} (h : parseHexAt s 0 4 0 = none) :
    parseFrom s = none := by
  unfold parseFrom
  rw [h]
  by_cases hl : s.length < 11
  · rw [if_pos hl]
  · rw [if_neg hl]

theorem parseFrom_command_fail {s : List Char}
    (h : parseHexAt s 7 9 0 = none) : parseFrom s = none := by
  unfold parseFrom
  rw [h]
  by_cases hl : s.length < 11
  · rw [if_pos hl]
  · rw [if_neg hl]
    cases parseHexAt s 0 4 0 <;> cases parseHexAt s 10 11 0 <;> rfl

theorem parseFrom_lenDigit_fail {s : List Char}
    (h : parseHexAt s 10 11 0 = none) : parseFrom s = none := by
  unfold parseFrom
  rw [h]
  by_cases hl : s.length < 11
  · rw [if_pos hl]
  · rw [if_neg hl]
    cases parseHexAt s 0 4 0 <;> cases parseHexAt s 7 9 0 <;> rfl

theorem parseFrom_len_gt8 {s : List Char} {L : Nat}
    (h3 : parseHexAt s 10 11 0 = some L) (hL : 8 < L % 256) :
    parseFrom s = none := by
  unfold parseFrom
  rw [h3]
  by_cases hl : s.length < 11
  · rw [if_pos hl]
  · rw [if_neg hl]
    cases parseHexAt s 0 4 0 <;> cases parseHexAt s 7 9 0 <;>
      simp [if_pos hL]

theorem parseFrom_data_short {s : List Char} {L : Nat}
    (h3 : parseHexAt s 10 11 0 = some L) (hL : ¬ 8 < L % 256)
    (hlen : s.length < 11 + 3 * (L % 256)) :
    parseFrom s = none := by
  unfold parseFrom
  rw [h3]
  by_cases hsl : s.length < 11
  · rw [if_pos hsl]
  · rw [if_neg hsl]
    cases parseHexAt s 0 4 0 <;> cases parseHexAt s 7 9 0 <;>
      simp [hL, hlen]

theorem parseFrom_data_fail {s : List Char} {hsh c L : Nat}
    (h1 : parseHexAt s 0 4 0 = some hsh) (h2 : parseHexAt s 7 9 0 = some c)
    (h3 : parseHexAt s 10 11 0 = some L) (hL : ¬ 8 < L % 256)
    (hsl : ¬ s.length < 11) (hlen : ¬ s.length < 11 + 3 * (L % 256))
    (hd : parseDataFrom s 0 (L % 256) = none) :
    parseFrom s = none := by
  unfold parseFrom
  rw [if_neg hsl, h1, h2, h3]
  simp only [if_neg hL, if_neg hlen, hd]

/-- A successful single-digit `parseHex` yields a value below 16. -/
theorem parseHexAt_single_digit_lt {s : List Char} {i d : Nat}
    (h : parseHexAt s i (i + 1) 0 = some d) : d < 16 := by
  unfold parseHexAt at h
  rw [show i + 1 - i = 1 from by omega] at h
  unfold parseHexLoop at h
  cases hc : hexDigitValue (charAt s i) with
  | none => rw [hc] at h; cases h
  | some v =>
    rw [hc] at h
    have hv := hexDigitValue_lt hc
    unfold parseHexLoop at h
    cases h
    omega

/-- Every message `parseFrom` accepts has `length ≤ 8`. -/
theorem parseFrom_length_le8 {s : List Char} {m : TrackMessage}
    (h : parseFrom s = some m) : m.length ≤ 8 := by
  unfold parseFrom at h
  split at h
  · cases h
  · split at h
    · rename_i hsh c L _ _ _
      dsimp only at h
      split at h
      · cases h
      · rename_i hL8
        split at h
        · cases h
        · split at h
          · rename_i bs hbs
            have hml : m.length = L % 256 := by
              injection h with h'
              rw [← h']
            omega
          · cases h
    · cases h

/-! ## The exchange loop -/

theorem exchangeLoop_success_matches :
    ∀ (polls : List PollStep) (cmd deadline : Nat) (m : TrackMessage)
      (rest : List PollStep),
      exchangeLoop cmd deadline polls = (.success m, rest) →
      m.command = cmd ∧ m.response = true := by
  intro polls
  induction polls with
  | nil =>
    intro cmd deadline m rest h
    simp [exchangeLoop] at h
  | cons step rest' ih =>
    intro cmd deadline m rest h
    simp only [exchangeLoop] at h
    by_cases hg : step.now < deadline
    · rw [if_pos hg] at h
      cases hrecv : step.recv with
      | none =>
        rw [hrecv] at h
        exact ih cmd deadline m rest h
      | some msg =>
        rw [hrecv] at h
        dsimp only at h
        by_cases hm : (msg.command == cmd && msg.response) = true
        · rw [if_pos hm] at h
          simp only [Bool.and_eq_true, beq_iff_eq] at hm
          injection h with h1 h2
          injection h1 with h1
          subst h1
          exact hm
        · rw [if_neg hm] at h
          exact ih cmd deadline m rest h
    · rw [if_neg hg] at h
      cases h

theorem exchangeLoop_first_match :
    ∀ (pre : List PollStep) (step : PollStep) (rest : List PollStep)
      (cmd deadline : Nat) (m : TrackMessage),
      (∀ p ∈ pre, p.now < deadline ∧ isMatch cmd p.recv = false) →
      step.now < deadline → step.recv = some m →
      m.command = cmd → m.response = true →
      exchangeLoop cmd deadline (pre ++ step :: rest) = (.success m, rest) := by
  intro pre
  induction pre with
  | nil =>
    intro step rest cmd deadline m _ hg hrecv hcmd hresp
    simp only [List.nil_append, exchangeLoop, if_pos hg, hrecv]
    rw [if_pos (by simp [hcmd, hresp])]
  | cons p pre' ih =>
    intro step rest cmd deadline m hpre hg hrecv hcmd hresp
    have hp := hpre p (List.mem_cons_self _ _)
    have htail : ∀ q ∈ pre', q.now < deadline ∧ isMatch cmd q.recv = false :=
      fun q hq => hpre q (List.mem_cons_of_mem _ hq)
    simp only [List.cons_append, exchangeLoop, if_pos hp.1]
    cases hprecv : p.recv with
    | none => exact ih step rest cmd deadline m htail hg hrecv hcmd hresp
    | some pm =>
      have hf : (pm.command == cmd && pm.response) = false := by
        have h2 := hp.2
        unfold isMatch at h2
        rw [hprecv] at h2
        exact h2
      dsimp only
      rw [if_neg (by simp [hf])]
      exact ih step rest cmd deadline m htail hg hrecv hcmd hresp

theorem exchangeLoop_timeout :
    ∀ (polls : List PollStep) (cmd deadline : Nat),
      (∃ p ∈ polls, ¬ p.now < deadline) →
      (∀ p ∈ polls, p.now < deadline → isMatch cmd p.recv = false) →
      (exchangeLoop cmd deadline polls).1 = .timeout := by
  intro polls
  induction polls with
  | nil =>
    intro cmd deadline h _
    simp at h
  | cons step rest ih =>
    intro cmd deadline hex hall
    by_cases hg : step.now < deadline
    · have hm := hall step (List.mem_cons_self _ _) hg
      have hex' : ∃ p ∈ rest, ¬ p.now < deadline := by
        obtain ⟨p, hp, hnp⟩ := hex
        rcases List.mem_cons.mp hp with h | h
        · subst h; exact absurd hg hnp
        · exact ⟨p, h, hnp⟩
      have hall' : ∀ p ∈ rest, p.now < deadline → isMatch cmd p.recv = false :=
        fun q hq hqg => hall q (List.mem_cons_of_mem _ hq) hqg
      simp only [exchangeLoop, if_pos hg]
      cases hrecv : step.recv with
      | none => exact ih cmd deadline hex' hall'
      | some pm =>
        have hf : (pm.command == cmd && pm.response) = false := by
          unfold isMatch at hm
          rw [hrecv] at hm
          exact hm
        dsimp only
        rw [if_neg (by simp [hf])]
        exact ih cmd deadline hex' hall'
    · simp [exchangeLoop, if_neg hg]

/-! ## Identifier bit packing -/

theorem shiftLeft17_lor {c h : Nat} (hh : h < 131072) :
    (c <<< 17) ||| h = c * 131072 + h := by
  have h2 : (2 : Nat) ^ 17 = 131072 := by norm_num
  have hor := Nat.mul_add_lt_is_or (by omega : h < 2 ^ 17) c
  rw [Nat.shiftLeft_eq, h2, mul_comm c 131072, ← h2, ← hor, h2]

theorem decode_command {c h : Nat} (hc : c < 256) (hh : h < 65536) :
    (((c <<< 17) ||| h) >>> 17) &&& 0xff = c := by
  rw [shiftLeft17_lor (by omega), Nat.shiftRight_eq_div_pow]
  have h2 : (2 : Nat) ^ 17 = 131072 := by norm_num
  rw [h2]
  have hdiv : (c * 131072 + h) / 131072 = c := by omega
  rw [hdiv, show (0xff : Nat) = 2 ^ 8 - 1 from by norm_num,
    Nat.and_pow_two_sub_one_eq_mod]
  exact Nat.mod_eq_of_lt (by omega)

theorem decode_hash {c h : Nat} (hh : h < 65536) :
    ((c <<< 17) ||| h) &&& 0xffff = h := by
  rw [shiftLeft17_lor (by omega),
    show (0xffff : Nat) = 2 ^ 16 - 1 from by norm_num,
    Nat.and_pow_two_sub_one_eq_mod]
  have h2 : (2 : Nat) ^ 16 = 65536 := by norm_num
  rw [h2]
  omega

theorem decode_respBit {c h : Nat} (hh : h < 65536) :
    ((c <<< 17) ||| h).testBit 16 = false := by
  rw [shiftLeft17_lor (by omega), Nat.testBit_to_div_mod]
  apply decide_eq_false
  have h2 : (2 : Nat) ^ 16 = 65536 := by norm_num
  rw [h2]
  omega

theorem getD_map_range {f : Nat → Nat} {i n : Nat} (h : i < n) :
    ((List.range n).map f).getD i 0 = f i := by
  rw [List.getD_eq_getElem?_getD, List.getElem?_map, List.getElem?_range h]
  rfl

/-! ## Claims -/

/-- Claim C1: for every request and timeout, `exchangeMessage` first
transmits the request, then busy-polls the non-blocking receive: (a) it
returns success only with a reply whose command equals the request command
and whose response flag is set; (b) the first such matching reply polled
strictly before the deadline is returned as the reply, every earlier
non-matching poll being discarded; (c) when no poll before the deadline
matches and the clock reaches the deadline, it returns failure. -/
theorem claim_C1_exchange_protocol (mHash : Nat) (debug : Bool)
    (out : TrackMessage) (t0 timeout : Nat) (polls : List PollStep) :
    (∀ m rest, exchangeMessage mHash debug out true t0 timeout polls
        = (.success m, rest) → m.command = out.command ∧ m.response = true) ∧
    (∀ pre step rest m, polls = pre ++ step :: rest →
      (∀ p ∈ pre, p.now < t0 + timeout ∧ isMatch out.command p.recv = false) →
      step.now < t0 + timeout → step.recv = some m →
      m.command = out.command → m.response = true →
      exchangeMessage mHash debug out true t0 timeout polls
        = (.success m, rest)) ∧
    ((∃ p ∈ polls, ¬ p.now < t0 + timeout) →
      (∀ p ∈ polls, p.now < t0 + timeout → isMatch out.command p.recv = false) →
      (exchangeMessage mHash debug out true t0 timeout polls).1 = .timeout) := by
  have hex : exchangeMessage mHash debug out true t0 timeout polls
      = exchangeLoop out.command (t0 + timeout) polls := rfl
  refine ⟨?_, ?_, ?_⟩
  · intro m rest h
    rw [hex] at h
    exact exchangeLoop_success_matches polls out.command (t0 + timeout) m rest h
  · intro pre step rest m hp hpre hg hrecv hcmd hresp
    rw [hex, hp]
    exact exchangeLoop_first_match pre step rest out.command (t0 + timeout) m
      hpre hg hrecv hcmd hresp
  · intro h1 h2
    rw [hex]
    exact exchangeLoop_timeout polls out.command (t0 + timeout) h1 h2

theorem claim_C1_witness :
    exchangeMessage 0x1234 false (TrackMessage.mk 5 0 false 4 [0, 0, 0, 1, 0, 0, 0, 0])
        true 0 1000
        [PollStep.mk 10 (some (TrackMessage.mk 6 0 true 0 [0, 0, 0, 0, 0, 0, 0, 0])),
          PollStep.mk 20 (some (TrackMessage.mk 5 99 true 2 [7, 7, 0, 0, 0, 0, 0, 0])),
          PollStep.mk 2000 none]
      = (.success (TrackMessage.mk 5 99 true 2 [7, 7, 0, 0, 0, 0, 0, 0]),
          [PollStep.mk 2000 none]) :=
  (claim_C1_exchange_protocol 0x1234 false
      (TrackMessage.mk 5 0 false 4 [0, 0, 0, 1, 0, 0, 0, 0]) 0 1000 _).2.1
    [PollStep.mk 10 (some (TrackMessage.mk 6 0 true 0 [0, 0, 0, 0, 0, 0, 0, 0]))]
    (PollStep.mk 20 (some (TrackMessage.mk 5 99 true 2 [7, 7, 0, 0, 0, 0, 0, 0])))
    [PollStep.mk 2000 none]
    (TrackMessage.mk 5 99 true 2 [7, 7, 0, 0, 0, 0, 0, 0])
    rfl (by decide) (by decide) rfl rfl rfl

/-- Claim C2, counterexample: the claim says a rejected transmit makes the
send operation itself halt rather than return control to the caller. In the
source `sendMessage` has no loop: it always reaches its final `return` and
hands the transport's rejection back as `false` — the outcome is `returned`,
not `halted`, at this concrete rejected transmit. -/
theorem claim_C2_counterexample :
    sendMessageOutcome 0x1234 (TrackMessage.mk 0 0 false 5 [0, 0, 0, 0, 0x11, 0, 0, 0])
        false ≠ SendOutcome.halted ∧
      sendMessageOutcome 0x1234 (TrackMessage.mk 0 0 false 5 [0, 0, 0, 0, 0x11, 0, 0, 0])
        false = SendOutcome.returned false :=
  ⟨by decide, rfl⟩

/-- Claim C2, amended: when the transport rejects a transmit *inside
`exchangeMessage`*, the engine halts all further protocol activity
permanently and unconditionally — independent of the tracing flag and of
the trace window — while a bare `sendMessage` has no halt: it returns the
transport's status to its caller. -/
theorem claim_C2_amended :
    (∀ (mHash : Nat) (debug : Bool) (out : TrackMessage) (t0 timeout : Nat)
        (polls : List PollStep),
      exchangeMessage mHash debug out false t0 timeout polls
        = (.halted, polls)) ∧
    (∀ (mHash : Nat) (m : TrackMessage) (accepted : Bool),
      sendMessageOutcome mHash m accepted = SendOutcome.returned accepted) := by
  exact ⟨fun _ _ _ _ _ _ => rfl, fun _ _ _ => rfl⟩

/-- Claim C3: for every valid message (length at most 8, payload bytes at
index at least `length` equal to zero, fields within their machine types),
parsing the text rendered by `printTo` succeeds and reproduces the message
exactly — command, hash, response flag, length and all payload bytes. -/
theorem claim_C3_roundtrip (m : TrackMessage) (hv : m.Valid) :
    parseFrom m.printTo = some m :=
  parseFrom_printTo m hv

theorem claim_C3_witness :
    (TrackMessage.mk 0x05 0x1234 true 2 [0, 1, 0, 0, 0, 0, 0, 0]).Valid ∧
      parseFrom (TrackMessage.mk 0x05 0x1234 true 2 [0, 1, 0, 0, 0, 0, 0, 0]).printTo
        = some (TrackMessage.mk 0x05 0x1234 true 2 [0, 1, 0, 0, 0, 0, 0, 0]) :=
  ⟨by decide, claim_C3_roundtrip _ (by decide)⟩

/-- Claim C4, counterexample: the claim says any deviation at a separator
position (offsets 4, 6, 9 and before each data byte) is a parse failure.
The text `"0000X  00 0"` carries `'X'` at offset 4, yet `parseFrom` accepts
it: the source never examines the separator offsets. -/
theorem claim_C4_counterexample :
    parseFrom ("0000X  00 0".toList)
      = some (TrackMessage.mk 0 0 false 0 [0, 0, 0, 0, 0, 0, 0, 0]) := by
  decide

/-- Claim C4, amended: `parseFrom` fails on any text shorter than 11
characters, on a non-hex character in any of the fixed hex fields (offsets
0–3, 7–8, 10, and the two-character data slots), on a length digit above 8,
and on too little text for the declared data bytes; the separator offsets
themselves are never examined (see the counterexample). -/
theorem claim_C4_amended :
    (∀ s : List Char, s.length < 11 → parseFrom s = none) ∧
    (∀ s : List Char, parseHexAt s 0 4 0 = none → parseFrom s = none) ∧
    (∀ s : List Char, parseHexAt s 7 9 0 = none → parseFrom s = none) ∧
    (∀ s : List Char, parseHexAt s 10 11 0 = none → parseFrom s = none) ∧
    (∀ (s : List Char) (L : Nat), parseHexAt s 10 11 0 = some L → 8 < L →
      parseFrom s = none) ∧
    (∀ (s : List Char) (L : Nat), parseHexAt s 10 11 0 = some L → L ≤ 8 →
      s.length < 11 + 3 * L → parseFrom s = none) ∧
    (∀ (s : List Char) (hsh c L : Nat), parseHexAt s 0 4 0 = some hsh →
      parseHexAt s 7 9 0 = some c → parseHexAt s 10 11 0 = some L → L ≤ 8 →
      ¬ s.length < 11 → ¬ s.length < 11 + 3 * L →
      parseDataFrom s 0 L = none → parseFrom s = none) := by
  refine ⟨?_, ?_, ?_, ?_, ?_, ?_, ?_⟩
  · exact fun s h => parseFrom_short h
  · exact fun s h => parseFrom_hash_fail h
  · exact fun s h => parseFrom_command_fail h
  · exact fun s h => parseFrom_lenDigit_fail h
  · intro s L h3 hL
    have hlt := parseHexAt_single_digit_lt h3
    exact parseFrom_len_gt8 h3 (by rw [Nat.mod_eq_of_lt (by omega)]; omega)
  · intro s L h3 hL8 hlen
    have hm : L % 256 = L := Nat.mod_eq_of_lt (by omega)
    refine parseFrom_data_short h3 ?_ ?_
    · rw [hm]; omega
    · rw [hm]; exact hlen
  · intro s hsh c L h1 h2 h3 hL8 hsl hslen hd
    have hm : L % 256 = L := Nat.mod_eq_of_lt (by omega)
    refine parseFrom_data_fail h1 h2 h3 ?_ hsl ?_ ?_
    · rw [hm]; omega
    · rw [hm]; exact hslen
    · rw [hm]; exact hd

theorem claim_C4_witness : parseFrom ("1234 R 05".toList) = none :=
  claim_C4_amended.1 _ (by decide)

/-- Claim C5: decoding the frame built by `sendMessage` (identifier
`command << 17 | hash` with the response bit left clear, `length` payload
bytes) through `fromCanMsg` reproduces the command, the stamped session
hash and the payload bytes, and yields `response = false`, since the
encoder never sets bit 16. -/
theorem claim_C5_frame_roundtrip (mHash : Nat) (m : TrackMessage)
    (accepted : Bool) (hc : m.command < 256) (hh : mHash < 65536)
    (hl : m.length ≤ 8) :
    (fromCanMsg (sendMessage mHash m accepted).2.1.id
        (sendMessage mHash m accepted).2.1.ext
        (sendMessage mHash m accepted).2.1.rtr
        (sendMessage mHash m accepted).2.1.len
        (sendMessage mHash m accepted).2.1.buf).1.command = m.command ∧
    (fromCanMsg (sendMessage mHash m accepted).2.1.id
        (sendMessage mHash m accepted).2.1.ext
        (sendMessage mHash m accepted).2.1.rtr
        (sendMessage mHash m accepted).2.1.len
        (sendMessage mHash m accepted).2.1.buf).1.hash = mHash ∧
    (fromCanMsg (sendMessage mHash m accepted).2.1.id
        (sendMessage mHash m accepted).2.1.ext
        (sendMessage mHash m accepted).2.1.rtr
        (sendMessage mHash m accepted).2.1.len
        (sendMessage mHash m accepted).2.1.buf).1.response = false ∧
    (fromCanMsg (sendMessage mHash m accepted).2.1.id
        (sendMessage mHash m accepted).2.1.ext
        (sendMessage mHash m accepted).2.1.rtr
        (sendMessage mHash m accepted).2.1.len
        (sendMessage mHash m accepted).2.1.buf).1.length = m.length ∧
    ∀ i, i < m.length →
      (fromCanMsg (sendMessage mHash m accepted).2.1.id
          (sendMessage mHash m accepted).2.1.ext
          (sendMessage mHash m accepted).2.1.rtr
          (sendMessage mHash m accepted).2.1.len
          (sendMessage mHash m accepted).2.1.buf).1.data.getD i 0
        = m.data.getD i 0 := by
  dsimp only [fromCanMsg, sendMessage]
  refine ⟨decode_command hc hh, decode_hash hh, decode_respBit hh, rfl, ?_⟩
  intro i hi
  rw [getD_map_range (by omega : i < 8), if_pos hi]

theorem claim_C5_witness :
    (fromCanMsg
        (sendMessage 0x1234 (TrackMessage.mk 5 99 true 3 [1, 2, 3, 0, 0, 0, 0, 0]) true).2.1.id
        (sendMessage 0x1234 (TrackMessage.mk 5 99 true 3 [1, 2, 3, 0, 0, 0, 0, 0]) true).2.1.ext
        (sendMessage 0x1234 (TrackMessage.mk 5 99 true 3 [1, 2, 3, 0, 0, 0, 0, 0]) true).2.1.rtr
        (sendMessage 0x1234 (TrackMessage.mk 5 99 true 3 [1, 2, 3, 0, 0, 0, 0, 0]) true).2.1.len
        (sendMessage 0x1234 (TrackMessage.mk 5 99 true 3 [1, 2, 3, 0, 0, 0, 0, 0]) true).2.1.buf).1.response
      = false :=
  (claim_C5_frame_roundtrip 0x1234 (TrackMessage.mk 5 99 true 3 [1, 2, 3, 0, 0, 0, 0, 0])
      true (by decide) (by decide) (by decide)).2.2.1

/-- Claim C6, counterexample: the claim says `fromCanMsg` rejects frames
declaring more than 8 payload bytes. It performs no validation at all: at a
declared length of 9 it still returns `true` and stores `length = 9` (in C
the copy loop would even overrun the 8-byte array). -/
theorem claim_C6_counterexample :
    (fromCanMsg 0 1 0 9 (List.replicate 9 0xAA)).2 = true ∧
      (fromCanMsg 0 1 0 9 (List.replicate 9 0xAA)).1.length = 9 :=
  ⟨rfl, rfl⟩

/-- Claim C6, amended: the textual decode path enforces the `length ≤ 8`
invariant — `parseFrom` never yields a message with `length > 8` — but the
binary path `fromCanMsg` enforces nothing: it returns `true` and adopts the
caller-declared byte count verbatim, whatever it is. -/
theorem claim_C6_amended :
    (∀ (s : List Char) (m : TrackMessage), parseFrom s = some m → m.length ≤ 8) ∧
    (∀ (aId aExt aRtr aLen : Nat) (aBuf : List Nat),
      (fromCanMsg aId aExt aRtr aLen aBuf).2 = true ∧
        (fromCanMsg aId aExt aRtr aLen aBuf).1.length = aLen) := by
  exact ⟨fun _ _ h => parseFrom_length_le8 h, fun _ _ _ _ _ => ⟨rfl, rfl⟩⟩

theorem claim_C6_witness :
    (TrackMessage.mk 5 0x1234 true 2 [0, 1, 0, 0, 0, 0, 0, 0]).length ≤ 8 :=
  claim_C6_amended.1 ("1234 R 05 2 00 01".toList) _ (by decide)

/-- Claim C7, counterexample: the claim characterises `accelerateLoco` as
writing `min(current + 77, 1023)` for every successfully read speed, and
`decelerateLoco` as writing 0 exactly when `current < 77`. Both fail on
large 16-bit readings: at 65500 the word addition wraps to 41 (not the
claimed clamp 1023), and at 40000 the wrapped difference 39923 exceeds
32767, so the code writes 0 rather than `current - 77`. -/
theorem claim_C7_counterexample :
    accelerateStep 65500 ≠ min (65500 + 77) 1023 ∧
      decelerateStep 40000 ≠ 40000 - 77 := by
  decide

/-- Claim C7, amended: when the speed read succeeds with `current` and the
16-bit sum does not wrap (`current + 77 < 65536`), accelerate writes
`min(current + 77, 1023)`; decelerate writes 0 for `current < 77`
(underflow clamp) and also for `current > 32844` (wrapped-difference above
32767), and `current - 77` in between; a failed read writes nothing.
Concretely, decelerating from 50 writes 0 and accelerating from 1000
writes 1023. -/
theorem claim_C7_amended :
    (∀ c, c + 77 < 65536 → accelerateStep c = min (c + 77) 1023) ∧
    (∀ c, c < 77 → decelerateStep c = 0) ∧
    (∀ c, 77 ≤ c → c ≤ 32844 → decelerateStep c = c - 77) ∧
    (∀ c, 32844 < c → c < 65536 → decelerateStep c = 0) ∧
    accelerateLoco none = none ∧ decelerateLoco none = none ∧
    decelerateLoco (some 50) = some 0 ∧
    accelerateLoco (some 1000) = some 1023 := by
  refine ⟨?_, ?_, ?_, ?_, rfl, rfl, by decide, by decide⟩
  · intro c hc
    simp only [accelerateStep]
    rw [Nat.mod_eq_of_lt hc]
    split <;> omega
  · intro c hc
    simp only [decelerateStep]
    split <;> omega
  · intro c h1 h2
    simp only [decelerateStep]
    split <;> omega
  · intro c h1 h2
    simp only [decelerateStep]
    split <;> omega

theorem claim_C7_witness : decelerateStep 50 = 0 :=
  claim_C7_amended.2.1 50 (by decide)

/-- Claim C8 (code bug): the intended contract — update the version bytes
iff the drained frame has command 0x18 AND trailer bytes 0x00, 0x10 — is
broken by the source's `message.command = 0x18 && ...`, which assigns
instead of comparing, so a frame with a wrong command but matching trailer
is accepted: with a single queued frame of command 0x05 and trailer
`00 10`, `getVersion` returns success with that frame's bytes, and a frame
with command 0x18 but a wrong trailer is rejected — the command is never
actually compared. -/
theorem claim_C8_version_match_bug :
    getVersion [TrackMessage.mk 0x05 0 true 8 [0, 0, 0, 0, 0xAB, 0xCD, 0x00, 0x10]] 0 0
        = (true, 0xAB, 0xCD) ∧
      getVersion [TrackMessage.mk 0x18 0 true 8 [0, 0, 0, 0, 1, 2, 3, 4]] 0 0
        = (false, 0, 0) :=
  ⟨rfl, rfl⟩

/-- Claim C9 (code bug): `setAccessory` does send and await the activation
frame (and, for a non-zero hold time, the deactivation frame with the same
address and position and power 0), but its boolean does not report success:
the source discards both `exchangeMessage` results and ends in
`return true;` — here both exchanges failed and the call still returns
`true`, contradicting the header doc "The return value reflects whether
the call was successful." -/
theorem claim_C9_returns_true_unconditionally :
    setAccessory false false 1 1 1 20
        = ([(accessoryFrame 1 1 1, 1000), (accessoryFrame 1 1 0, 1000)], true) ∧
      ∀ (ex1 ex2 : Bool) (address position power time : Nat),
        (setAccessory ex1 ex2 address position power time).2 = true :=
  ⟨by decide, fun _ _ _ _ _ _ => rfl⟩

/-- Claim C10: with timeout 0 the guard `millis() < time + 0` is already
false at the first check (the clock is monotone, so every guard reading is
at least the post-send reading `t0`), so `exchangeMessage` transmits, polls
nothing — the whole trace is returned unconsumed, even if its first entry
holds a matching reply — and returns failure. -/
theorem claim_C10_zero_timeout (mHash : Nat) (debug : Bool)
    (out : TrackMessage) (t0 : Nat) (polls : List PollStep)
    (hmono : ∀ p ∈ polls, t0 ≤ p.now) :
    exchangeMessage mHash debug out true t0 0 polls = (.timeout, polls) := by
  have hex : exchangeMessage mHash debug out true t0 0 polls
      = exchangeLoop out.command (t0 + 0) polls := rfl
  rw [hex]
  cases polls with
  | nil => rfl
  | cons step rest =>
    have := hmono step (List.mem_cons_self _ _)
    simp only [exchangeLoop]
    rw [if_neg (by omega)]

theorem claim_C10_witness :
    exchangeMessage 7 false (TrackMessage.mk 5 0 false 0 [0, 0, 0, 0, 0, 0, 0, 0])
        true 100 0
        [PollStep.mk 100 (some (TrackMessage.mk 5 0 true 0 [0, 0, 0, 0, 0, 0, 0, 0]))]
      = (.timeout,
          [PollStep.mk 100 (some (TrackMessage.mk 5 0 true 0 [0, 0, 0, 0, 0, 0, 0, 0]))]) :=
  claim_C10_zero_timeout 7 false
    (TrackMessage.mk 5 0 false 0 [0, 0, 0, 0, 0, 0, 0, 0]) 100 _ (by decide)

end Railuino
